import Mathlib

/-!
Shallow embedding of the scioto position/event store and its numeric
root-finding routines, with theorems checking the specification's claims.

Records and query keys are Python lists of numbers compared
lexicographically; they are embedded as `List ℚ` with Mathlib's
lexicographic linear order (shorter list sorts before any extension of it,
exactly as in Python).
-/

/-- Failure channel of the store queries: Python's `ValueError` (raised
explicitly by `Sun.at` / `search` when the bisection index is zero; the
spec calls it `NotFound`), `IndexError` (raised by an out-of-range list
subscript), and `TypeError` (raised by an order comparison between
unorderable types, e.g. a tuple against a list). -/
inductive PyErr where
  | valueError
  | indexError
  | typeError
deriving DecidableEq, Repr

instance {ε α : Type} [DecidableEq ε] [DecidableEq α] : DecidableEq (Except ε α) := fun x y =>
  match x, y with
  | Except.ok a, Except.ok b =>
      if h : a = b then isTrue (by rw [h]) else isFalse (by simp [h])
  | Except.ok _, Except.error _ => isFalse (by simp)
  | Except.error _, Except.ok _ => isFalse (by simp)
  | Except.error e, Except.error f =>
      if h : e = f then isTrue (by rw [h]) else isFalse (by simp [h])

/-- Loop of CPython's `bisect.bisect_right`: binary search maintaining
`lo < hi`, probing `mid = (lo + hi) / 2` and moving `hi` down when
`x < a[mid]`, `lo` up past `mid` otherwise.  The structural `fuel`
argument bounds the iteration count; `bisect_right` passes `a.length`,
which is never exhausted since `hi - lo` shrinks at every step.  The
(unreachable) out-of-range probe returns `x` itself as default. -/
def bisectLoop (a : List (List ℚ)) (x : List ℚ) : Nat → Nat → Nat → Nat
  | 0, lo, _ => lo
  | fuel + 1, lo, hi =>
    if lo < hi then
      if x < a.getD ((lo + hi) / 2) x then bisectLoop a x fuel lo ((lo + hi) / 2)
      else bisectLoop a x fuel ((lo + hi) / 2 + 1) hi
    else lo

/-- `bisect.bisect_right(a, x)`: the insertion point after (to the right
of) any entries equal to `x`. -/
def bisect_right (a : List (List ℚ)) (x : List ℚ) : Nat :=
  bisectLoop a x a.length 0 a.length

/-- `Sun.at(*args)` from `scioto/sun.py`: `index = bisect_right(self.data,
list(args))`; when `index` is truthy (nonzero) return `self[index]`
(an `IndexError` when `index` is past the end), otherwise raise
`ValueError`. -/
def sunAt (data : List (List ℚ)) (args : List ℚ) : Except PyErr (List ℚ) :=
  let index := bisect_right data args
  if index ≠ 0 then
    match data.get? index with
    | some v => Except.ok v
    | none => Except.error PyErr.indexError
  else Except.error PyErr.valueError

/-- `search(a, x)` from `scioto/sun_minute_by_minute.py`: "Find rightmost
value less than or equal to x"; returns `(i-1, a[i-1])` when the
bisection index `i` is nonzero, raises `ValueError` otherwise. -/
def search (a : List (List ℚ)) (x : List ℚ) : Except PyErr (Nat × List ℚ) :=
  let i := bisect_right a x
  if i ≠ 0 then
    match a.get? (i - 1) with
    | some v => Except.ok (i - 1, v)
    | none => Except.error PyErr.indexError
  else Except.error PyErr.valueError

/-- Python 3 order comparison between a tuple and a list: unconditionally
`TypeError` ("'<' not supported between instances of 'tuple' and 'list'"),
whatever the contents. -/
def tupleLtList (_x _rec : List ℚ) : Except PyErr Bool :=
  Except.error PyErr.typeError

/-- The `bisect_right` loop as run by `SunEvents.at`, whose probe
comparison `x < a[mid]` can itself raise (the key is `tuple(args)` while
the JSON-loaded records are lists): any raised comparison aborts the
search. -/
def bisectLoopT (a : List (List ℚ)) (x : List ℚ) : Nat → Nat → Nat → Except PyErr Nat
  | 0, lo, _ => Except.ok lo
  | fuel + 1, lo, hi =>
    if lo < hi then
      match tupleLtList x (a.getD ((lo + hi) / 2) x) with
      | Except.error e => Except.error e
      | Except.ok true => bisectLoopT a x fuel lo ((lo + hi) / 2)
      | Except.ok false => bisectLoopT a x fuel ((lo + hi) / 2 + 1) hi
    else Except.ok lo

/-- `SunEvents.at(*args)` from `scioto/sun.py`:
`index = bisect_right(self.data, tuple(args))` — a TUPLE key against the
LIST records loaded from JSON, so the first bisect comparison raises
`TypeError` on every non-empty table — then an unguarded `self[index]`
(no `ValueError` branch at all; on an empty table the bisection makes no
comparison, returns 0, and `self[0]` raises `IndexError`). -/
def sunEventsAt (data : List (List ℚ)) (args : List ℚ) : Except PyErr (List ℚ) :=
  match bisectLoopT data args data.length 0 data.length with
  | Except.error e => Except.error e
  | Except.ok index =>
    match data.get? index with
    | some v => Except.ok v
    | none => Except.error PyErr.indexError

/-- `SunEvents.on_date(month, day)` from `scioto/sun.py`: bisect on the
two-field key `[month, day]`, then keep the tail entries whose first two
fields equal the key (the `Event` wrapper only re-packages each record,
so the raw records are returned here). -/
def onDate (data : List (List ℚ)) (month day : ℚ) : List (List ℚ) :=
  let key : List ℚ := [month, day]
  let index := bisect_right data key
  (data.drop index).filter (fun v => decide (v.take 2 = key))

/-- Entries of a sorted record list are monotone in the index. -/
theorem sorted_getD_mono {a : List (List ℚ)} {d : List ℚ} (hs : a.Sorted (· ≤ ·))
    {i j : Nat} (hij : i ≤ j) (hj : j < a.length) : a.getD i d ≤ a.getD j d := by
  have hi : i < a.length := lt_of_le_of_lt hij hj
  rw [List.getD_eq_getElem a d hi, List.getD_eq_getElem a d hj]
  rcases Nat.eq_or_lt_of_le hij with rfl | hlt
  · exact le_refl _
  · exact hs.rel_get_of_lt (a := ⟨i, hi⟩) (b := ⟨j, hj⟩) hlt

/-- Correctness of the `bisect_right` loop on a sorted list: the returned
index lies between `lo` and `hi`, every entry below it is `≤ x`, and every
entry from it on is `> x`. -/
theorem bisectLoop_char {a : List (List ℚ)} {x : List ℚ} (hs : a.Sorted (· ≤ ·)) :
    ∀ fuel lo hi : Nat, hi ≤ a.length → lo ≤ hi → hi - lo ≤ fuel →
    (∀ i < lo, a.getD i x ≤ x) →
    (∀ i, hi ≤ i → i < a.length → x < a.getD i x) →
    lo ≤ bisectLoop a x fuel lo hi ∧ bisectLoop a x fuel lo hi ≤ hi ∧
    (∀ i < bisectLoop a x fuel lo hi, a.getD i x ≤ x) ∧
    (∀ i, bisectLoop a x fuel lo hi ≤ i → i < a.length → x < a.getD i x) := by
  intro fuel
  induction fuel with
  | zero =>
    intro lo hi hhi hlohi hfuel hbelow habove
    have heq : lo = hi := by omega
    subst heq
    exact ⟨le_refl _, le_refl _, hbelow, habove⟩
  | succ n ih =>
    intro lo hi hhi hlohi hfuel hbelow habove
    by_cases h : lo < hi
    · have hmid1 : lo ≤ (lo + hi) / 2 := by
        rw [Nat.le_div_iff_mul_le (by norm_num)]; omega
      have hmid2 : (lo + hi) / 2 < hi := Nat.div_lt_of_lt_mul (by omega)
      have hmidlen : (lo + hi) / 2 < a.length := lt_of_lt_of_le hmid2 hhi
      by_cases hx : x < a.getD ((lo + hi) / 2) x
      · have hrec := ih lo ((lo + hi) / 2) (le_of_lt hmidlen) hmid1 (by omega) hbelow
          (fun i hi1 hi2 => lt_of_lt_of_le hx (sorted_getD_mono hs hi1 hi2))
        have hstep : bisectLoop a x (n + 1) lo hi = bisectLoop a x n lo ((lo + hi) / 2) := by
          simp only [bisectLoop, if_pos h, if_pos hx]
        rw [hstep]
        exact ⟨hrec.1, le_trans hrec.2.1 (le_of_lt hmid2), hrec.2.2⟩
      · have hx2 : a.getD ((lo + hi) / 2) x ≤ x := le_of_not_lt hx
        have hrec := ih ((lo + hi) / 2 + 1) hi hhi (by omega) (by omega)
          (fun i hi1 => le_trans (sorted_getD_mono hs (by omega) hmidlen) hx2) habove
        have hstep : bisectLoop a x (n + 1) lo hi = bisectLoop a x n ((lo + hi) / 2 + 1) hi := by
          simp only [bisectLoop, if_pos h, if_neg hx]
        rw [hstep]
        exact ⟨le_trans (le_trans hmid1 (Nat.le_succ _)) hrec.1, hrec.2.1, hrec.2.2⟩
    · have heq : lo = hi := by omega
      subst heq
      have hstep : bisectLoop a x (n + 1) lo lo = lo := by
        simp only [bisectLoop, if_neg h]
      rw [hstep]
      exact ⟨le_refl _, le_refl _, hbelow, habove⟩

/-- `bisect_right` on a sorted list returns the count of entries `≤ x`:
all entries before the returned index are `≤ x`, all entries from it on
are `> x`. -/
theorem bisect_right_char {a : List (List ℚ)} {x : List ℚ} (hs : a.Sorted (· ≤ ·)) :
    bisect_right a x ≤ a.length ∧
    (∀ i < bisect_right a x, a.getD i x ≤ x) ∧
    (∀ i, bisect_right a x ≤ i → i < a.length → x < a.getD i x) := by
  have h := bisectLoop_char (x := x) hs a.length 0 a.length (le_refl _) (Nat.zero_le _) (by omega)
    (fun i hi => absurd hi (Nat.not_lt_zero i))
    (fun i hi1 hi2 => absurd hi2 (by omega))
  exact ⟨h.2.1, h.2.2⟩

/-- The bisection loop never returns an index above `hi` (no sortedness
needed). -/
theorem bisectLoop_le_hi (a : List (List ℚ)) (x : List ℚ) :
    ∀ fuel lo hi : Nat, lo ≤ hi → bisectLoop a x fuel lo hi ≤ hi := by
  intro fuel
  induction fuel with
  | zero => intro lo hi h; exact h
  | succ n ih =>
    intro lo hi h
    by_cases hlt : lo < hi
    · have hmid1 : lo ≤ (lo + hi) / 2 := by
        rw [Nat.le_div_iff_mul_le (by norm_num)]; omega
      have hmid2 : (lo + hi) / 2 < hi := Nat.div_lt_of_lt_mul (by omega)
      by_cases hx : x < a.getD ((lo + hi) / 2) x
      · have hstep : bisectLoop a x (n + 1) lo hi = bisectLoop a x n lo ((lo + hi) / 2) := by
          simp only [bisectLoop, if_pos hlt, if_pos hx]
        rw [hstep]
        exact le_trans (ih lo _ hmid1) (le_of_lt hmid2)
      · have hstep : bisectLoop a x (n + 1) lo hi = bisectLoop a x n ((lo + hi) / 2 + 1) hi := by
          simp only [bisectLoop, if_pos hlt, if_neg hx]
        rw [hstep]
        exact ih _ hi (by omega)
    · have heq : lo = hi := by omega
      subst heq
      have hstep : bisectLoop a x (n + 1) lo lo = lo := by
        simp only [bisectLoop, if_neg hlt]
      rw [hstep]

/-- `bisect_right` never exceeds the list length. -/
theorem bisect_right_le_length (a : List (List ℚ)) (x : List ℚ) :
    bisect_right a x ≤ a.length :=
  bisectLoop_le_hi a x a.length 0 a.length (Nat.zero_le _)

theorem getElem?_eq_some_getD (a : List (List ℚ)) (d : List ℚ) (n : Nat) (h : n < a.length) :
    a[n]? = some (a.getD n d) := by
  rw [List.getElem?_eq_getElem h, List.getD_eq_getElem a d h]

/-- Closed-form evaluation of `search`. -/
theorem search_eval (a : List (List ℚ)) (k : List ℚ) :
    search a k = if bisect_right a k = 0 then Except.error PyErr.valueError
      else Except.ok (bisect_right a k - 1, a.getD (bisect_right a k - 1) k) := by
  by_cases h0 : bisect_right a k = 0
  · simp [search, h0]
  · have h1 : bisect_right a k - 1 < a.length := by
      have := bisect_right_le_length a k; omega
    simp [search, h0, List.getElem?_eq_getElem h1, List.getD_eq_getElem a k h1]

/-- Closed-form evaluation of `Sun.at`. -/
theorem sunAt_eval (a : List (List ℚ)) (k : List ℚ) :
    sunAt a k = if bisect_right a k = 0 then Except.error PyErr.valueError
      else if bisect_right a k < a.length then Except.ok (a.getD (bisect_right a k) k)
      else Except.error PyErr.indexError := by
  by_cases h0 : bisect_right a k = 0
  · simp [sunAt, h0]
  · by_cases h1 : bisect_right a k < a.length
    · simp [sunAt, h0, h1, List.getElem?_eq_getElem h1, List.getD_eq_getElem a k h1]
    · have h2 : a[bisect_right a k]? = none := List.getElem?_eq_none (by omega)
      simp [sunAt, h0, h1, h2]

/-- Closed-form evaluation of `SunEvents.at`: on a non-empty table the
very first tuple-against-list probe raises `TypeError`; on an empty table
the loop makes no comparison and `self[0]` raises `IndexError`. -/
theorem sunEventsAt_eval (a : List (List ℚ)) (k : List ℚ) :
    sunEventsAt a k = if a = [] then Except.error PyErr.indexError
      else Except.error PyErr.typeError := by
  by_cases h0 : a = []
  · subst h0
    simp [sunEventsAt, bisectLoopT]
  · have hlen : a.length ≠ 0 := fun h => h0 (List.eq_nil_of_length_eq_zero h)
    obtain ⟨m, hm⟩ := Nat.exists_eq_succ_of_ne_zero hlen
    have hloop : bisectLoopT a k a.length 0 a.length = Except.error PyErr.typeError := by
      rw [hm]
      simp [bisectLoopT, tupleLtList]
    simp [sunEventsAt, hloop, h0]

theorem getD_mem_of_lt (a : List (List ℚ)) (x : List ℚ) (n : Nat) (h : n < a.length) :
    a.getD n x ∈ a := by
  rw [List.getD_eq_getElem a x h]
  exact List.getElem_mem h

/-- On a sorted table the bisection index is zero exactly when the query
key sorts before every stored record. -/
theorem bisect_right_eq_zero_iff {a : List (List ℚ)} {k : List ℚ} (hs : a.Sorted (· ≤ ·)) :
    bisect_right a k = 0 ↔ ∀ e ∈ a, k < e := by
  obtain ⟨hlen, hle, hgt⟩ := bisect_right_char (x := k) hs
  constructor
  · intro h0 e he
    obtain ⟨j, hj, hje⟩ := List.mem_iff_getElem.mp he
    have hj2 := hgt j (by omega) hj
    rwa [List.getD_eq_getElem a k hj, hje] at hj2
  · intro hall
    by_contra hne
    have h1 : 0 < bisect_right a k := Nat.pos_of_ne_zero hne
    have h2 : a.getD 0 k ≤ k := hle 0 h1
    have h3 : a.getD 0 k ∈ a := getD_mem_of_lt a k 0 (by omega)
    exact absurd h2 (not_le.mpr (hall _ h3))

/-- C1, amended: on a sorted table, `search` implements the predecessor
contract the spec states — it returns a stored record that is `≤ k` and
maximal among stored records `≤ k` — while `Sun.at` returns the successor:
a stored record strictly greater than `k` and minimal among those; both
fail with `ValueError` (the spec's `NotFound`) exactly when `k` sorts
before every stored sample. -/
theorem point_query_contract (a : List (List ℚ)) (k : List ℚ) (hs : a.Sorted (· ≤ ·)) :
    (∀ i v, search a k = Except.ok (i, v) → v ∈ a ∧ v ≤ k ∧ ∀ e ∈ a, e ≤ k → e ≤ v) ∧
    (search a k = Except.error PyErr.valueError ↔ ∀ e ∈ a, k < e) ∧
    (∀ v, sunAt a k = Except.ok v → v ∈ a ∧ k < v ∧ ∀ e ∈ a, k < e → v ≤ e) ∧
    (sunAt a k = Except.error PyErr.valueError ↔ ∀ e ∈ a, k < e) := by
  obtain ⟨hlen, hle, hgt⟩ := bisect_right_char (x := k) hs
  have hzero := bisect_right_eq_zero_iff (k := k) hs
  refine ⟨?_, ?_, ?_, ?_⟩
  · intro i v hok
    rw [search_eval] at hok
    split at hok
    · exact absurd hok (by simp)
    · rename_i h0
      rw [Except.ok.injEq, Prod.mk.injEq] at hok
      obtain ⟨hi, hv⟩ := hok
      subst hv
      have hr1 : bisect_right a k - 1 < a.length := by omega
      refine ⟨getD_mem_of_lt a k _ hr1, hle _ (by omega), ?_⟩
      intro e he hek
      obtain ⟨j, hj, hje⟩ := List.mem_iff_getElem.mp he
      by_cases hjr : j < bisect_right a k
      · have := sorted_getD_mono (d := k) hs (show j ≤ bisect_right a k - 1 by omega) hr1
        rwa [List.getD_eq_getElem a k hj, hje] at this
      · exfalso
        have := hgt j (by omega) hj
        rw [List.getD_eq_getElem a k hj, hje] at this
        exact absurd hek (not_le.mpr this)
  · rw [search_eval]
    split
    · rename_i h0
      simp only [eq_self_iff_true, true_iff]
      exact hzero.mp h0
    · rename_i h0
      constructor
      · intro hbad; exact absurd hbad (by simp)
      · intro hall; exact absurd (hzero.mpr hall) h0
  · intro v hok
    rw [sunAt_eval] at hok
    split at hok
    · exact absurd hok (by simp)
    · rename_i h0
      split at hok
      · rename_i h1
        rw [Except.ok.injEq] at hok
        subst hok
        refine ⟨getD_mem_of_lt a k _ h1, hgt _ (le_refl _) h1, ?_⟩
        intro e he hke
        obtain ⟨j, hj, hje⟩ := List.mem_iff_getElem.mp he
        by_cases hjr : j < bisect_right a k
        · exfalso
          have := hle j hjr
          rw [List.getD_eq_getElem a k hj, hje] at this
          exact absurd hke (not_lt.mpr this)
        · have := sorted_getD_mono (d := k) hs (show bisect_right a k ≤ j by omega) hj
          rwa [List.getD_eq_getElem a k hj, hje] at this
      · exact absurd hok (by simp)
  · rw [sunAt_eval]
    split
    · rename_i h0
      simp only [eq_self_iff_true, true_iff]
      exact hzero.mp h0
    · rename_i h0
      have hno : ¬ ∀ e ∈ a, k < e := fun hall => absurd (hzero.mpr hall) h0
      split
      · constructor
        · intro hbad; exact absurd hbad (by simp)
        · intro hall; exact absurd hall hno
      · constructor
        · intro hbad; exact absurd hbad (by simp)
        · intro hall; exact absurd hall hno

/-- Concrete two-sample table used by the query-claim witnesses. -/
def tblA : List (List ℚ) := [[1, 1, 0, 0, 10, 100], [1, 1, 0, 1, 11, 101]]

/-- C1 counterexample: querying at the full key `[1,1,0,1]` returns the
sample stored at that exact minute — a record strictly greater than the
key — not the record with the largest key `≤` the query. -/
theorem at_returns_successor_counterexample :
    sunAt tblA [1, 1, 0, 1] = Except.ok [1, 1, 0, 1, 11, 101] ∧
    ¬ ([(1 : ℚ), 1, 0, 1, 11, 101] ≤ [1, 1, 0, 1]) := by decide

theorem point_query_contract_witness :
    List.Sorted (· ≤ ·) tblA ∧
    ((∀ i v, search tblA [1, 1, 0, 1] = Except.ok (i, v) →
        v ∈ tblA ∧ v ≤ [1, 1, 0, 1] ∧ ∀ e ∈ tblA, e ≤ [1, 1, 0, 1] → e ≤ v) ∧
     (search tblA [1, 1, 0, 1] = Except.error PyErr.valueError ↔ ∀ e ∈ tblA, [1, 1, 0, 1] < e) ∧
     (∀ v, sunAt tblA [1, 1, 0, 1] = Except.ok v →
        v ∈ tblA ∧ [1, 1, 0, 1] < v ∧ ∀ e ∈ tblA, [1, 1, 0, 1] < e → v ≤ e) ∧
     (sunAt tblA [1, 1, 0, 1] = Except.error PyErr.valueError ↔ ∀ e ∈ tblA, [1, 1, 0, 1] < e)) :=
  ⟨by decide, point_query_contract tblA [1, 1, 0, 1] (by decide)⟩

/-- C10 counterexample: on a non-empty table with a key sorting after
every stored record, `SunEvents.at` raises `TypeError` — the tuple key
hits the list records in the first bisect comparison — not the
`IndexError` the claim asserts for both point queries. -/
theorem events_at_type_error_counterexample :
    sunEventsAt tblA [2] = Except.error PyErr.typeError ∧
    Except.error PyErr.typeError ≠ (Except.error PyErr.indexError : Except PyErr (List ℚ)) := by
  constructor
  · decide
  · decide

/-- C10, amended: when the query key sorts after every stored record,
`Sun.at` raises `IndexError` — not `ValueError` and not the last sample —
and `Sun.at` raises `ValueError` exactly at bisection index zero.
`SunEvents.at`, however, raises `TypeError` on every non-empty table
(its tuple key is unorderable against the list records, so the subscript
is never reached), raises `IndexError` only on an empty table, and never
raises `ValueError`. -/
theorem past_end_raises_index_error (a : List (List ℚ)) (k : List ℚ)
    (hs : a.Sorted (· ≤ ·)) (hne : a ≠ []) (hafter : ∀ e ∈ a, e < k) :
    sunAt a k = Except.error PyErr.indexError ∧
    (∀ b q, sunAt b q = Except.error PyErr.valueError ↔ bisect_right b q = 0) ∧
    sunEventsAt a k = Except.error PyErr.typeError ∧
    (∀ b q, b ≠ [] → sunEventsAt b q = Except.error PyErr.typeError) ∧
    (∀ q, sunEventsAt ([] : List (List ℚ)) q = Except.error PyErr.indexError) ∧
    (∀ b q, sunEventsAt b q ≠ Except.error PyErr.valueError) := by
  obtain ⟨hlen, hle, hgt⟩ := bisect_right_char (x := k) hs
  have hr : bisect_right a k = a.length := by
    by_contra hne2
    have h1 : bisect_right a k < a.length := by omega
    have h2 := hgt _ (le_refl _) h1
    have h3 := hafter _ (getD_mem_of_lt a k _ h1)
    exact absurd h2 (not_lt.mpr (le_of_lt h3))
  have hlen0 : a.length ≠ 0 := by
    intro h
    exact hne (List.eq_nil_of_length_eq_zero h)
  refine ⟨?_, ?_, ?_, ?_, ?_, ?_⟩
  · rw [sunAt_eval, if_neg (by omega), if_neg (by omega)]
  · intro b q
    rw [sunAt_eval]
    split
    · rename_i h0
      simp [h0]
    · rename_i h0
      split
      · simp [h0]
      · simp [h0]
  · rw [sunEventsAt_eval, if_neg hne]
  · intro b q hb
    rw [sunEventsAt_eval, if_neg hb]
  · intro q
    rw [sunEventsAt_eval, if_pos rfl]
  · intro b q
    rw [sunEventsAt_eval]
    split
    · simp
    · simp

theorem past_end_raises_index_error_witness :
    (List.Sorted (· ≤ ·) tblA ∧ tblA ≠ [] ∧ (∀ e ∈ tblA, e < [2])) ∧
    (sunAt tblA [2] = Except.error PyErr.indexError ∧
     (∀ b q, sunAt b q = Except.error PyErr.valueError ↔ bisect_right b q = 0) ∧
     sunEventsAt tblA [2] = Except.error PyErr.typeError ∧
     (∀ b q, b ≠ [] → sunEventsAt b q = Except.error PyErr.typeError) ∧
     (∀ q, sunEventsAt ([] : List (List ℚ)) q = Except.error PyErr.indexError) ∧
     (∀ b q, sunEventsAt b q ≠ Except.error PyErr.valueError)) :=
  ⟨⟨by decide, by decide, by decide⟩,
    past_end_raises_index_error tblA [2] (by decide) (by decide) (by decide)⟩

theorem mem_take_getD (a : List (List ℚ)) (x : List ℚ) (n : Nat) :
    ∀ v ∈ a.take n, ∃ j, j < n ∧ j < a.length ∧ a.getD j x = v := by
  intro v hv
  obtain ⟨j, hj, hje⟩ := List.mem_iff_getElem.mp hv
  have hlen := List.length_take n a
  have hjn : j < n := by omega
  have hjl : j < a.length := by omega
  refine ⟨j, hjn, hjl, ?_⟩
  rw [List.getD_eq_getElem a x hjl, ← hje]
  exact (List.getElem_take a (h := hj)).symm

theorem key_lt_of_take2 (v : List ℚ) (m d : ℚ) (h2 : v.take 2 = [m, d]) (hl : 2 < v.length) :
    [m, d] < v := by
  match v, hl with
  | a1 :: a2 :: a3 :: rest, _ =>
    simp only [List.take_succ_cons, List.take_zero, List.cons.injEq, and_true] at h2
    obtain ⟨rfl, rfl, -⟩ := h2
    exact List.Lex.cons (List.Lex.cons List.Lex.nil)

/-- C8: on a sorted table of records longer than two fields,
`on_date(m, d)` returns exactly the records whose first two fields are
`[m, d]`, in stored order, and is deterministic. -/
theorem on_date_exact (data : List (List ℚ)) (m d : ℚ)
    (hs : data.Sorted (· ≤ ·)) (hrec : ∀ e ∈ data, 2 < e.length) :
    onDate data m d = data.filter (fun v => decide (v.take 2 = [m, d])) ∧
    onDate data m d = onDate data m d := by
  refine ⟨?_, rfl⟩
  obtain ⟨hlen, hle, hgt⟩ := bisect_right_char (x := [m, d]) hs
  have htake : (data.take (bisect_right data [m, d])).filter
      (fun v => decide (v.take 2 = [m, d])) = [] := by
    rw [List.filter_eq_nil_iff]
    intro v hv
    obtain ⟨j, hjr, hjl, hje⟩ := mem_take_getD data [m, d] _ v hv
    simp only [decide_eq_true_eq]
    intro hteq
    have hvmem : v ∈ data := by
      rw [← hje]
      exact getD_mem_of_lt data [m, d] j hjl
    have hvlen : 2 < v.length := hrec v hvmem
    have hlt : [m, d] < v := key_lt_of_take2 v m d hteq hvlen
    have hlee : v ≤ [m, d] := by
      have := hle j hjr
      rwa [hje] at this
    exact absurd hlt (not_lt.mpr hlee)
  conv_rhs => rw [← List.take_append_drop (bisect_right data [m, d]) data]
  rw [List.filter_append, htake, List.nil_append]
  rfl

/-- Concrete event table used by the range-query witness. -/
def tblB : List (List ℚ) := [[1, 1, 5, 0, 1, 2], [1, 2, 5, 0, 3, 4], [1, 2, 6, 0, 3, 4], [2, 1, 0, 0, 5, 6]]

theorem on_date_exact_witness :
    (List.Sorted (· ≤ ·) tblB ∧ ∀ e ∈ tblB, 2 < e.length) ∧
    (onDate tblB 1 2 = tblB.filter (fun v => decide (v.take 2 = [1, 2])) ∧
     onDate tblB 1 2 = onDate tblB 1 2) :=
  ⟨⟨by decide, by decide⟩, on_date_exact tblB 1 2 (by decide) (by decide)⟩

/-- Month lengths of the canonical leap year (2020) used by the batch
builder. -/
def monthLengths : List Nat := [31, 29, 31, 30, 31, 30, 31, 31, 30, 31, 30, 31]

/-- Converts a 0-based day-of-year to a 1-based (month, day) pair by
walking the month-length table. -/
def dateOfDayAux : List Nat → Nat → Nat → Nat × Nat
  | [], m, d => (m, d + 1)
  | n :: rest, m, d => if d < n then (m, d + 1) else dateOfDayAux rest (m + 1) (d - n)

def dateOfDay (d : Nat) : Nat × Nat := dateOfDayAux monthLengths 1 d

/-- Civil calendar conversion used by `position(jd, ...)` via
`jd.astimezone(tz)`: a minute count relative to the local year start of
the canonical leap year becomes the stored `[month, day, hour, minute]`
key.  Negative counts (an instant before local New Year) fall on
31 December of the preceding year, whose month/day fields are still
stored as `[12, 31, ...]`.  The `datetime`/`pytz` conversion itself is an
external collaborator of the core (spec section 1); this embeds its
documented civil-calendar behaviour. -/
def civilOfMinute (t : Int) : List ℚ :=
  if t < 0 then
    [12, 31, (((1440 + t).toNat / 60 : Nat) : ℚ), (((1440 + t).toNat % 60 : Nat) : ℚ)]
  else
    [((dateOfDay (t.toNat / 1440)).1 : ℚ), ((dateOfDay (t.toNat / 1440)).2 : ℚ),
      ((t.toNat % 1440 / 60 : Nat) : ℚ), ((t.toNat % 1440 % 60 : Nat) : ℚ)]

/-- `Sun.now()` from `scioto/sun.py`: reads `datetime.datetime.now()` —
the current civil time in the PROCESS's system-local timezone (the stored
`self.tz` is never consulted) — and delegates to `Sun.at` with its
(month, day, hour, minute).  The clock is passed explicitly as the
current UTC minute of the canonical year plus the system timezone's
offset function (minutes). -/
def sunNow (data : List (List ℚ)) (utcNow : Nat) (systemTz : Nat → Int) :
    Except PyErr (List ℚ) :=
  sunAt data (civilOfMinute ((utcNow : Int) + systemTz utcNow))

/-- Modelled from the spec: "`now()` is equivalent to `at()` with the
current civil (month, day, hour, minute), interpreted in the table's
stored timezone" — the same lookup but through the timezone stored in the
table at build time. -/
def sunNowSpec (data : List (List ℚ)) (utcNow : Nat) (tableTz : Nat → Int) :
    Except PyErr (List ℚ) :=
  sunAt data (civilOfMinute ((utcNow : Int) + tableTz utcNow))

/-- C9, amended: `now()` equals `at()` applied to the current civil key
of the SYSTEM timezone; it agrees with the spec's table-timezone reading
exactly on instants where both timezones yield the same civil key. -/
theorem now_at_equivalence (data : List (List ℚ)) (t : Nat) (sysTz tblTz : Nat → Int)
    (h : civilOfMinute ((t : Int) + sysTz t) = civilOfMinute ((t : Int) + tblTz t)) :
    sunNow data t sysTz = sunAt data (civilOfMinute ((t : Int) + sysTz t)) ∧
    sunNow data t sysTz = sunNowSpec data t tblTz := by
  constructor
  · rfl
  · unfold sunNow sunNowSpec
    rw [h]

/-- One-sample table for the `now()` counterexample. -/
def tblC : List (List ℚ) := [[1, 1, 0, 0, 5, 100]]

/-- C9 counterexample: at UTC minute 0 a system timezone of UTC−5 queries
key `[12, 31, 19, 0]` (an `IndexError` past the table end), while the
table's stored timezone UTC+0 would query `[1, 1, 0, 0]` (a `ValueError`):
`now()` does not interpret the clock in the table's stored timezone. -/
theorem now_ignores_table_timezone_counterexample :
    sunNow tblC 0 (fun _ => -300) ≠ sunNowSpec tblC 0 (fun _ => 0) := by decide

theorem now_at_equivalence_witness :
    civilOfMinute (((0 : Nat) : Int) + (fun _ : Nat => (-300 : Int)) 0) =
      civilOfMinute (((0 : Nat) : Int) + (fun _ : Nat => (-300 : Int)) 0) ∧
    (sunNow tblC 0 (fun _ : Nat => (-300 : Int)) =
      sunAt tblC (civilOfMinute (((0 : Nat) : Int) + (fun _ : Nat => (-300 : Int)) 0)) ∧
     sunNow tblC 0 (fun _ : Nat => (-300 : Int)) =
      sunNowSpec tblC 0 (fun _ : Nat => (-300 : Int))) :=
  ⟨rfl, now_at_equivalence tblC 0 (fun _ => -300) (fun _ => -300) rfl⟩

/-- Time constants from `sky/api.py`: `hour = 1 / 24`, `minute = hour / 60`,
`second = minute / 60`. -/
def hour : ℚ := 1 / 24

def minute : ℚ := hour / 60

def second : ℚ := minute / 60

/-- `default_newton_precision = second / 10` from `sky/api.py`. -/
def default_newton_precision : ℚ := second / 10

/-- Body of `newton(f, x0, x1, precision)` from `sky/api.py`:
`while f1 and abs(x1 - x0) > precision and f1 != f0:` update
`x0, x1 = x1, x1 + (x1-x0)/(f0/f1 - 1)` and `f0, f1 = f1, f(x1)`; on exit
return `x1`.  The structural `fuel` argument caps the number of loop
iterations in the embedding; `none` means the Python loop is still
running after `fuel` iterations (the source itself has no cap). -/
def newtonGo (f : ℚ → ℚ) (prec : ℚ) : Nat → ℚ → ℚ → ℚ → ℚ → Option ℚ
  | 0, _, _, _, _ => none
  | n + 1, x0, x1, f0, f1 =>
    if f1 ≠ 0 ∧ |x1 - x0| > prec ∧ f1 ≠ f0 then
      newtonGo f prec n x1 (x1 + (x1 - x0) / (f0 / f1 - 1)) f1
        (f (x1 + (x1 - x0) / (f0 / f1 - 1)))
    else some x1

/-- `newton(f, x0, x1, precision=default_newton_precision)`: seed the loop
state with `f0, f1 = f(x0), f(x1)`. -/
def newton (f : ℚ → ℚ) (x0 x1 : ℚ) (prec : ℚ) (fuel : Nat) : Option ℚ :=
  newtonGo f prec fuel x0 x1 (f x0) (f x1)

/-- C4, amended: one iteration of the secant loop returns `x1` exactly when
`f(x1) = 0`, or `|x1 - x0|` is at or below the precision bound, or
`f(x1) = f(x0)` (stall, returned as converged with no error); otherwise it
performs the secant update `x1 + (x1-x0)/(f(x0)/f(x1) - 1)`.  The default
precision bound is one-TENTH of a SECOND of time (`second / 10`), not one
twentieth of a minute. -/
theorem secant_step_and_stop_conditions :
    (∀ (f : ℚ → ℚ) (prec : ℚ) (n : Nat) (x0 x1 f0 f1 : ℚ),
      newtonGo f prec (n + 1) x0 x1 f0 f1 =
        if f1 = 0 ∨ |x1 - x0| ≤ prec ∨ f1 = f0 then some x1
        else newtonGo f prec n x1 (x1 + (x1 - x0) / (f0 / f1 - 1)) f1
          (f (x1 + (x1 - x0) / (f0 / f1 - 1)))) ∧
    default_newton_precision = second / 10 := by
  constructor
  · intro f prec n x0 x1 f0 f1
    by_cases h : f1 = 0 ∨ |x1 - x0| ≤ prec ∨ f1 = f0
    · rw [if_pos h]
      have h2 : ¬ (f1 ≠ 0 ∧ |x1 - x0| > prec ∧ f1 ≠ f0) := by
        push_neg
        intro ha hb
        rcases h with h | h | h
        · exact absurd h ha
        · exact absurd h (not_le.mpr hb)
        · exact h
      rw [newtonGo, if_neg h2]
    · rw [if_neg h]
      push_neg at h
      obtain ⟨h1, h2, h3⟩ := h
      rw [newtonGo, if_pos ⟨h1, h2, h3⟩]
  · rfl

/-- C4 counterexample: the default precision bound is not one-twentieth of
a minute of time. -/
theorem default_precision_counterexample : default_newton_precision ≠ minute / 20 := by
  norm_num [default_newton_precision, second, minute, hour]

/-- Objective function `f(x) = 1/x`, an input on which the secant loop
never meets any convergence condition. -/
def reciprocal (x : ℚ) : ℚ := 1 / x

/-- On `f(x) = 1/x` the secant update sends the state `(a, b)` to
`(b, a + b)`: starting from seeds `1 ≤ a < a + 1 ≤ b` the abscissas grow
like Fibonacci numbers, the gap `|x1 - x0|` never shrinks below the
precision, `f1` is never zero and never stalls — the loop runs forever,
whatever the fuel. -/
theorem newtonGo_reciprocal_diverges :
    ∀ (n : Nat) (a b : ℚ), 1 ≤ a → a + 1 ≤ b →
      newtonGo reciprocal default_newton_precision n a b (1 / a) (1 / b) = none := by
  intro n
  induction n with
  | zero =>
    intro a b ha hb
    rfl
  | succ m ih =>
    intro a b ha hb
    have ha0 : a ≠ 0 := ne_of_gt (by linarith)
    have hb0 : b ≠ 0 := ne_of_gt (by linarith)
    have hba : b - a ≠ 0 := by
      intro h
      have : b = a := by linarith
      linarith
    have hcond : (1 : ℚ) / b ≠ 0 ∧ |b - a| > default_newton_precision ∧ (1 : ℚ) / b ≠ 1 / a := by
      refine ⟨one_div_ne_zero hb0, ?_, ?_⟩
      · rw [abs_of_pos (show (0 : ℚ) < b - a by linarith)]
        have hp : default_newton_precision < 1 := by
          norm_num [default_newton_precision, second, minute, hour]
        linarith
      · intro h
        rw [div_eq_div_iff hb0 ha0] at h
        have : a = b := by linarith
        linarith
    rw [newtonGo, if_pos hcond]
    have hx2 : b + (b - a) / (1 / a / (1 / b) - 1) = a + b := by
      have h1 : (1 : ℚ) / a / (1 / b) - 1 = (b - a) / a := by
        field_simp
      rw [h1, div_div_eq_mul_div, mul_comm, mul_div_assoc, div_self hba, mul_one]
      ring
    rw [hx2]
    exact ih b (a + b) (by linarith) (by linarith)

/-- C5: the secant root-finder has NO iteration cap — on the objective
`f(x) = 1/x` with seeds `x0 = 1`, `x1 = 2` and the default precision, the
loop is still running after any number of iterations (`none` = fuel
exhausted without the loop exiting), so the code neither bounds its
iterations nor fails loudly. -/
theorem newton_unbounded_iterations :
    ∀ fuel : Nat, newton reciprocal 1 2 default_newton_precision fuel = none := by
  intro fuel
  exact newtonGo_reciprocal_diverges fuel 1 2 (le_refl 1) (by norm_num)

/-- Modelled from the spec: the `scioto.pairwise` helper module is not in
`src/`; the spec describes it as walking "each adjacent pair (a, b) in
table order", i.e. `(s0,s1), (s1,s2), ...`. -/
def pairwiseAdj {α : Type} (l : List α) : List (α × α) := l.zip l.tail

/-- `TWILIGHT = -6` from `scioto/sun.py`. -/
def TWILIGHT : ℚ := -6

/-- Python `int(x)`: truncation toward zero. -/
def truncInt (x : ℚ) : ℤ := if x < 0 then -⌊-x⌋ else ⌊x⌋

/-- A derived horizon event `b[:4] + [name, int(b[-1])]`: the key of
sample `b`, the event name, and `b`'s azimuth truncated to a degree. -/
structure EventRec where
  key : List ℚ
  name : String
  az : ℤ
deriving DecidableEq, Repr

/-- Altitude field `s[4]` of a position record. -/
def altOf (s : List ℚ) : ℚ := s.getD 4 0

def mkEventRec (b : List ℚ) (name : String) : EventRec :=
  ⟨b.take 4, name, truncInt (b.getLastD 0)⟩

/-- Loop body of `create_horizon_event_data` for one adjacent pair:
`if a[4] <= 0 < b[4]: Rise elif a[4] > 0 >= b[4]: Set`, then the same
against `TWILIGHT` for Dawn/Dusk; each hit appends
`b[:4] + [name, int(b[-1])]`. -/
def pairEvents (a b : List ℚ) : List EventRec :=
  (if altOf a ≤ 0 ∧ 0 < altOf b then [mkEventRec b "Rise"]
   else if altOf a > 0 ∧ 0 ≥ altOf b then [mkEventRec b "Set"]
   else []) ++
  (if altOf a ≤ TWILIGHT ∧ TWILIGHT < altOf b then [mkEventRec b "Dawn"]
   else if altOf a > TWILIGHT ∧ TWILIGHT ≥ altOf b then [mkEventRec b "Dusk"]
   else [])

/-- Order used by the final `events.sort()`: Python compares the mixed
records field by field — key first, then name, then azimuth. -/
def eventLe (e f : EventRec) : Prop :=
  e.key < f.key ∨ (e.key = f.key ∧ (e.name < f.name ∨ (e.name = f.name ∧ e.az ≤ f.az)))

instance : DecidableRel eventLe := fun e f => by
  unfold eventLe
  infer_instance

/-- `create_horizon_event_data` from `scioto/sun.py` (identical logic in
`sky/sun.py`): scan the position table pairwise, emit rise/set and
dawn/dusk events, and sort the emitted events. -/
def create_horizon_event_data (data : List (List ℚ)) : List EventRec :=
  ((pairwiseAdj data).flatMap (fun p => pairEvents p.1 p.2)).insertionSort eventLe

/-- C2: the derived event table is exactly the per-pair emissions (up to
the final sort); for each adjacent pair `(a, b)` a Rise/Dawn event is
emitted iff `a.alt ≤ t < b.alt` and a Set/Dusk event iff
`a.alt > t ≥ b.alt` for the thresholds `t = 0` and `t = TWILIGHT = -6`;
every emitted event carries `b`'s four-field key and `b`'s azimuth
truncated to an integer degree. -/
theorem horizon_event_emission (data : List (List ℚ)) (a b : List ℚ) :
    (create_horizon_event_data data).Perm
      ((pairwiseAdj data).flatMap (fun p => pairEvents p.1 p.2)) ∧
    (mkEventRec b "Rise" ∈ pairEvents a b ↔ altOf a ≤ 0 ∧ 0 < altOf b) ∧
    (mkEventRec b "Set" ∈ pairEvents a b ↔ altOf a > 0 ∧ 0 ≥ altOf b) ∧
    (mkEventRec b "Dawn" ∈ pairEvents a b ↔ altOf a ≤ TWILIGHT ∧ TWILIGHT < altOf b) ∧
    (mkEventRec b "Dusk" ∈ pairEvents a b ↔ altOf a > TWILIGHT ∧ TWILIGHT ≥ altOf b) ∧
    (∀ e ∈ pairEvents a b, e.key = b.take 4 ∧ e.az = truncInt (b.getLastD 0)) := by
  have hrise : ("Rise" : String) ≠ "Set" := by decide
  have hrise2 : ("Rise" : String) ≠ "Dawn" := by decide
  have hrise3 : ("Rise" : String) ≠ "Dusk" := by decide
  have hset : ("Set" : String) ≠ "Dawn" := by decide
  have hset2 : ("Set" : String) ≠ "Dusk" := by decide
  have hdawn : ("Dawn" : String) ≠ "Dusk" := by decide
  refine ⟨List.perm_insertionSort eventLe _, ?_, ?_, ?_, ?_, ?_⟩
  · by_cases h1 : altOf a ≤ 0 ∧ 0 < altOf b <;>
    by_cases h2 : altOf a > 0 ∧ 0 ≥ altOf b <;>
    by_cases h3 : altOf a ≤ TWILIGHT ∧ TWILIGHT < altOf b <;>
    by_cases h4 : altOf a > TWILIGHT ∧ TWILIGHT ≥ altOf b <;>
    simp [pairEvents, h1, h2, h3, h4, mkEventRec, EventRec.mk.injEq,
      hrise, hrise2, hrise3, hset, hset2, hdawn,
      Ne.symm hrise, Ne.symm hrise2, Ne.symm hrise3,
      Ne.symm hset, Ne.symm hset2, Ne.symm hdawn] <;>
    first
      | linarith [h1.1, h2.1]
      | linarith [h3.1, h4.1]
  · by_cases h1 : altOf a ≤ 0 ∧ 0 < altOf b <;>
    by_cases h2 : altOf a > 0 ∧ 0 ≥ altOf b <;>
    by_cases h3 : altOf a ≤ TWILIGHT ∧ TWILIGHT < altOf b <;>
    by_cases h4 : altOf a > TWILIGHT ∧ TWILIGHT ≥ altOf b <;>
    simp [pairEvents, h1, h2, h3, h4, mkEventRec, EventRec.mk.injEq,
      hrise, hrise2, hrise3, hset, hset2, hdawn,
      Ne.symm hrise, Ne.symm hrise2, Ne.symm hrise3,
      Ne.symm hset, Ne.symm hset2, Ne.symm hdawn] <;>
    first
      | linarith [h1.1, h2.1]
      | linarith [h3.1, h4.1]
  · by_cases h1 : altOf a ≤ 0 ∧ 0 < altOf b <;>
    by_cases h2 : altOf a > 0 ∧ 0 ≥ altOf b <;>
    by_cases h3 : altOf a ≤ TWILIGHT ∧ TWILIGHT < altOf b <;>
    by_cases h4 : altOf a > TWILIGHT ∧ TWILIGHT ≥ altOf b <;>
    simp [pairEvents, h1, h2, h3, h4, mkEventRec, EventRec.mk.injEq,
      hrise, hrise2, hrise3, hset, hset2, hdawn,
      Ne.symm hrise, Ne.symm hrise2, Ne.symm hrise3,
      Ne.symm hset, Ne.symm hset2, Ne.symm hdawn] <;>
    first
      | linarith [h1.1, h2.1]
      | linarith [h3.1, h4.1]
  · by_cases h1 : altOf a ≤ 0 ∧ 0 < altOf b <;>
    by_cases h2 : altOf a > 0 ∧ 0 ≥ altOf b <;>
    by_cases h3 : altOf a ≤ TWILIGHT ∧ TWILIGHT < altOf b <;>
    by_cases h4 : altOf a > TWILIGHT ∧ TWILIGHT ≥ altOf b <;>
    simp [pairEvents, h1, h2, h3, h4, mkEventRec, EventRec.mk.injEq,
      hrise, hrise2, hrise3, hset, hset2, hdawn,
      Ne.symm hrise, Ne.symm hrise2, Ne.symm hrise3,
      Ne.symm hset, Ne.symm hset2, Ne.symm hdawn] <;>
    first
      | linarith [h1.1, h2.1]
      | linarith [h3.1, h4.1]
  · intro e he
    simp only [pairEvents, List.mem_append] at he
    have hkey : ∀ nm : String, e = mkEventRec b nm →
        e.key = b.take 4 ∧ e.az = truncInt (b.getLastD 0) := by
      intro nm hnm
      subst hnm
      exact ⟨rfl, rfl⟩
    rcases he with he | he
    · split at he
      · simp only [List.mem_singleton] at he
        exact hkey "Rise" he
      · split at he
        · simp only [List.mem_singleton] at he
          exact hkey "Set" he
        · exact absurd he (List.not_mem_nil _)
    · split at he
      · simp only [List.mem_singleton] at he
        exact hkey "Dawn" he
      · split at he
        · simp only [List.mem_singleton] at he
          exact hkey "Dusk" he
        · exact absurd he (List.not_mem_nil _)

/-- `np.sign` of a rational. -/
def signQ (x : ℚ) : Int := if x < 0 then -1 else if 0 < x then 1 else 0

/-- Indices selected by
`jd.tt[np.ediff1d(np.sign(alt - altitude), to_end=0) != 0]` in
`generate_horizon_events` (`scioto/sky.py`): hourly sample positions whose
sign (of altitude minus threshold) differs from the next sample's; the
appended `to_end=0` difference never selects the last sample. -/
def change_indices (alts : List ℚ) (altitude : ℚ) : List Nat :=
  (List.range alts.length).filter (fun i =>
    decide (i + 1 < alts.length ∧
      signQ (alts.getD (i + 1) 0 - altitude) - signQ (alts.getD i 0 - altitude) ≠ 0))

/-- The generator's yield loop: each change date yields an event labelled
`kind[which_kind]`, and `which_kind` flips after every yield.  The
`brentq` refinement inside the loop is the external root-finder; the
bracket index stands in for the refined instant. -/
def yieldEvents (kind : String × String) : Nat → List Nat → List (Nat × String)
  | _, [] => []
  | which, d :: rest =>
    (d, if which = 1 then kind.2 else kind.1) :: yieldEvents kind (1 - which) rest

/-- `generate_horizon_events` (`scioto/sky.py`) reduced to its scan:
`which_kind = 1 if current_altitude > altitude else 0`, then one yielded
event per sign change.  When no sign change exists the generator simply
finishes — this function totally returns a list and has no error
outcome. -/
def generate_horizon_events_scan (alts : List ℚ) (altitude : ℚ)
    (kind : String × String) : List (Nat × String) :=
  yieldEvents kind (if altitude < alts.getD 0 0 then 1 else 0) (change_indices alts altitude)

/-- Bracket scan of `calculate_azimuth_event` (`scioto/sky.py`): walk
adjacent pairs of (azimuth, time) samples, unwrap a backwards azimuth step
by adding 360, and return the first bracket `aza ≤ azimuth ≤ azb`. -/
def azScan (pairs : List ((ℚ × ℚ) × (ℚ × ℚ))) (azimuth : ℚ) : Option (ℚ × ℚ) :=
  match pairs with
  | [] => none
  | (a, b) :: rest =>
    if a.1 ≤ azimuth ∧ azimuth ≤ (if b.1 < a.1 then b.1 + 360 else b.1) then some (a.2, b.2)
    else azScan rest azimuth

/-- `calculate_azimuth_event` (`scioto/sky.py`): returns the bracket
(refined by the external `brentq`), or raises
`ValueError(f"Can't find azimuth=...")` when the loop finds none. -/
def calculate_azimuth_event (samples : List (ℚ × ℚ)) (azimuth : ℚ) :
    Except PyErr (ℚ × ℚ) :=
  match azScan (pairwiseAdj samples) azimuth with
  | some br => Except.ok br
  | none => Except.error PyErr.valueError

/-- C6, amended: the fixed-azimuth search raises an error (`ValueError`)
exactly when no adjacent sample pair brackets the target azimuth; the
horizon-crossing search, however, yields the empty event list — a normal
return, not an error — exactly when the hourly samples show no sign
change. -/
theorem bracketing_failure_modes (samples : List ((ℚ × ℚ))) (azimuth : ℚ)
    (alts : List ℚ) (thr : ℚ) (kind : String × String) :
    (calculate_azimuth_event samples azimuth = Except.error PyErr.valueError ↔
      ∀ p ∈ pairwiseAdj samples,
        ¬ (p.1.1 ≤ azimuth ∧ azimuth ≤ (if p.2.1 < p.1.1 then p.2.1 + 360 else p.2.1))) ∧
    (generate_horizon_events_scan alts thr kind = [] ↔ change_indices alts thr = []) := by
  constructor
  · unfold calculate_azimuth_event
    have hgen : ∀ ps : List ((ℚ × ℚ) × (ℚ × ℚ)),
        azScan ps azimuth = none ↔
        ∀ p ∈ ps, ¬ (p.1.1 ≤ azimuth ∧ azimuth ≤ (if p.2.1 < p.1.1 then p.2.1 + 360 else p.2.1)) := by
      intro ps
      induction ps with
      | nil => simp [azScan]
      | cons q rest ih =>
        obtain ⟨qa, qb⟩ := q
        by_cases hq : qa.1 ≤ azimuth ∧ azimuth ≤ (if qb.1 < qa.1 then qb.1 + 360 else qb.1)
        · simp [azScan, hq]
        · simp only [azScan, if_neg hq, List.mem_cons]
          rw [ih]
          constructor
          · intro h p hp
            rcases hp with rfl | hp
            · exact hq
            · exact h p hp
          · intro h p hp
            exact h p (Or.inr hp)
    rw [← hgen (pairwiseAdj samples)]
    cases hscan : azScan (pairwiseAdj samples) azimuth with
    | none => simp
    | some br => simp
  · unfold generate_horizon_events_scan
    cases hc : change_indices alts thr with
    | nil => simp [yieldEvents]
    | cons d rest => simp [yieldEvents]

section
attribute [local semireducible] Rat.sub Rat.mul Rat.add Rat.inv

/-- C6 counterexample: with constant hourly altitudes (no sign change
anywhere) the horizon-event generator returns the empty list as a normal
result — no error is raised, contradicting the claim that both searches
fail with an error when no bracket exists. -/
theorem no_sign_change_returns_empty_counterexample :
    change_indices [(10 : ℚ), 10, 10] 0 = [] ∧
    generate_horizon_events_scan [(10 : ℚ), 10, 10] 0 ("Rise", "Set") = [] := by
  constructor
  · decide
  · decide

end

/-- UTC offset (in minutes) of the US/Eastern timezone over the canonical
leap year 2020, keyed by UTC minute-of-year: EST (−300) until the DST
switch at 2020-03-08 07:00 UTC (minute 96900), EDT (−240) until
2020-11-01 06:00 UTC (minute 439560), then EST again.  Like the calendar
conversion, the `pytz` zone data is an external collaborator; this embeds
its published transitions. -/
def easternOffset (t : Nat) : Int := if 96900 ≤ t ∧ t < 439560 then -240 else -300

/-- Python `round(y)`: round half to even. -/
def pyRoundHalfEven (y : ℚ) : ℤ :=
  if y - ⌊y⌋ < 1 / 2 then ⌊y⌋
  else if 1 / 2 < y - ⌊y⌋ then ⌊y⌋ + 1
  else if ⌊y⌋ % 2 = 0 then ⌊y⌋ else ⌊y⌋ + 1

/-- Python `round(x, 1)` as used on the altitude/azimuth before storing. -/
def pyRound1 (x : ℚ) : ℚ := (pyRoundHalfEven (10 * x) : ℚ) / 10

/-- `position(jd, alt, az, tz)` from `scioto/sun.py`: converts the UTC
instant (minute `t` of the canonical year) to the observer's local civil
time via `jd.astimezone(tz)` and stores
`(month, day, hour, minute, round(alt, 1), round(az, 1))`. -/
def positionTuple (tz : Nat → Int) (t : Nat) (alt az : ℚ) : List ℚ :=
  civilOfMinute ((t : Int) + tz t) ++ [pyRound1 alt, pyRound1 az]

/-- `compute_positions_for_date` from `scioto/sun.py`: 1440 evenly spaced
UTC instants (top of each minute of UTC day `d`), each observed through
the Ephemeris Port (the abstract `alt`/`az` functions of the absolute UTC
minute) and converted by `position`. -/
def compute_positions_for_date (tz : Nat → Int) (alt az : Nat → ℚ) (d : Nat) :
    List (List ℚ) :=
  (List.range 1440).map fun m =>
    positionTuple tz (d * 1440 + m) (alt (d * 1440 + m)) (az (d * 1440 + m))

/-- `create_sun_minute_by_minute` from `scioto/sun.py`: one task per day
of the canonical year, results extended in completion `order` and then
globally re-sorted (`results.sort()`). -/
def create_sun_minute_by_minute (tz : Nat → Int) (alt az : Nat → ℚ)
    (order : List Nat) : List (List ℚ) :=
  ((order.map (compute_positions_for_date tz alt az)).flatten).insertionSort (· ≤ ·)

theorem civilOfMinute_length (t : Int) : (civilOfMinute t).length = 4 := by
  unfold civilOfMinute
  split <;> rfl

/-- A permutation of the outer list of lists permutes the concatenation. -/
theorem flatten_perm_of_perm {α : Type} {L1 L2 : List (List α)} (h : L1.Perm L2) :
    L1.flatten.Perm L2.flatten := by
  induction h with
  | nil => exact List.Perm.refl _
  | cons x _ ih => simpa using ih.append_left x
  | swap x y l =>
    simp only [List.flatten_cons]
    rw [← List.append_assoc, ← List.append_assoc]
    exact List.perm_append_comm.append_right _
  | trans _ _ ih1 ih2 => exact ih1.trans ih2

/-- C7: the sorted merged table is the same for every completion order of
the per-day tasks (hence for every worker-pool size). -/
theorem merge_order_invariance (tz : Nat → Int) (alt az : Nat → ℚ) (o1 o2 : List Nat)
    (h : o1.Perm o2) :
    create_sun_minute_by_minute tz alt az o1 = create_sun_minute_by_minute tz alt az o2 := by
  unfold create_sun_minute_by_minute
  have hp : ((o1.map (compute_positions_for_date tz alt az)).flatten).Perm
      ((o2.map (compute_positions_for_date tz alt az)).flatten) :=
    flatten_perm_of_perm (h.map _)
  exact List.eq_of_perm_of_sorted
    (((List.perm_insertionSort _ _).trans hp).trans (List.perm_insertionSort _ _).symm)
    (List.sorted_insertionSort _ _) (List.sorted_insertionSort _ _)

theorem merge_order_invariance_witness :
    List.Perm [0, 1] [1, 0] ∧
    create_sun_minute_by_minute (fun _ => 0) (fun _ => 0) (fun _ => 0) [0, 1] =
      create_sun_minute_by_minute (fun _ => 0) (fun _ => 0) (fun _ => 0) [1, 0] :=
  ⟨List.Perm.swap 1 0 [], merge_order_invariance _ _ _ [0, 1] [1, 0] (List.Perm.swap 1 0 [])⟩

/-- C3, amended: every per-day task yields exactly 1440 samples, the full
build holds 1440 samples per submitted task (527040 for the 366-day
canonical year), and each sample's four-field key is the local-civil-time
conversion of its UTC instant. -/
theorem batch_builder_shape (tz : Nat → Int) (alt az : Nat → ℚ) (d : Nat)
    (order : List Nat) :
    (compute_positions_for_date tz alt az d).length = 1440 ∧
    (create_sun_minute_by_minute tz alt az order).length = 1440 * order.length ∧
    ∀ s ∈ compute_positions_for_date tz alt az d, ∃ m, m < 1440 ∧
      s.take 4 = civilOfMinute ((↑(d * 1440 + m) : Int) + tz (d * 1440 + m)) := by
  refine ⟨by simp [compute_positions_for_date], ?_, ?_⟩
  · unfold create_sun_minute_by_minute
    rw [List.length_insertionSort, List.length_flatten, List.map_map]
    have hmapc : order.map (List.length ∘ compute_positions_for_date tz alt az) =
        order.map (fun _ => 1440) := by
      apply List.map_congr_left
      intro x hx
      simp [compute_positions_for_date]
    have hsum : ∀ l : List Nat, (l.map (fun _ => (1440 : Nat))).sum = 1440 * l.length := by
      intro l
      induction l with
      | nil => simp
      | cons o rest ih =>
        simp only [List.map_cons, List.sum_cons, List.length_cons, ih]
        ring
    rw [hmapc]
    exact hsum order
  · intro s hs
    simp only [compute_positions_for_date, List.mem_map, List.mem_range] at hs
    obtain ⟨m, hm, rfl⟩ := hs
    refine ⟨m, hm, ?_⟩
    unfold positionTuple
    rw [← civilOfMinute_length ((↑(d * 1440 + m) : Int) + tz (d * 1440 + m)), List.take_left]

set_option maxRecDepth 8000 in
/-- C3 counterexample: built with the US/Eastern timezone of the canonical
leap year, the table keys are NOT duplicate-free — the DST fall-back hour
maps the two distinct UTC instants 2020-11-01 05:00 UTC (minute 439500,
still EDT) and 06:00 UTC (minute 439560, first EST minute) to the same
civil key `[11, 1, 1, 0]`. -/
theorem eastern_duplicate_keys :
    ¬ ((create_sun_minute_by_minute easternOffset (fun _ => 0) (fun _ => 0)
        (List.range 366)).map (fun s => s.take 4)).Nodup := by
  intro h
  have hperm : ((create_sun_minute_by_minute easternOffset (fun _ => 0) (fun _ => 0)
      (List.range 366)).map (fun s => s.take 4)).Perm
      ((((List.range 366).map
        (compute_positions_for_date easternOffset (fun _ => 0) (fun _ => 0))).flatten).map
        (fun s => s.take 4)) :=
    (List.perm_insertionSort _ _).map _
  have h2 := hperm.nodup_iff.mp h
  rw [List.map_flatten] at h2
  have hmem : (compute_positions_for_date easternOffset (fun _ => 0) (fun _ => 0) 305).map
      (fun s => s.take 4) ∈
      ((List.range 366).map
        (compute_positions_for_date easternOffset (fun _ => 0) (fun _ => 0))).map
        (List.map (fun s => s.take 4)) := by
    rw [List.map_map]
    exact List.mem_map.mpr ⟨305, List.mem_range.mpr (by norm_num), rfl⟩
  have h3 := h2.sublist (List.sublist_flatten_of_mem hmem)
  rw [compute_positions_for_date, List.map_map] at h3
  have hkeys : (positionTuple easternOffset (305 * 1440 + 300) 0 0).take 4 =
      (positionTuple easternOffset (305 * 1440 + 360) 0 0).take 4 := by decide
  have h4 : (300 : Nat) = 360 := List.inj_on_of_nodup_map h3
    (List.mem_range.mpr (by norm_num)) (List.mem_range.mpr (by norm_num)) hkeys
  exact absurd h4 (by norm_num)
